import Mathlib

/-!
Verification of the PR-review chunking scripts of this repository.

The development shallowly embeds the pure computational parts of the three
Python scripts:

* `scripts/pr_review/chunker.py`   — namespace `Chunker` (span collection,
  reviewer distribution, per-file error isolation);
* `scripts/pr_review/pr_chunker.py` — namespace `PrReview` (diff-excerpt
  extraction, chunk enrichment, markdown generation);
* `scripts/pr_chunker.py`          — namespace `PrTop` (file-content lookup,
  definition diff extraction, per-file analysis);
* `.github/scripts/asplit_pr_chunks.py` — namespace `Asplit` (ast-based
  top-level chunk labelling with a bare-except fallback).

External collaborators (git, the libcst parser, the GitHub API) are modelled
as opaque function parameters; Python strings are modelled as Lean `String`
with the handful of Python string operations re-implemented structurally over
`String.data` so that every definition evaluates inside the kernel.
Definitions named `*_spec` are the specification-side formulations used to
compare the code against the specification document.
-/

/-! ## Python string operations, re-implemented structurally -/

/-- Split a character list at every occurrence of `c` (Python `str.split`). -/
def splitChar (c : Char) : List Char → List (List Char)
  | [] => [[]]
  | x :: xs =>
      let r := splitChar c xs
      if x = c then [] :: r
      else
        match r with
        | [] => [[x]]
        | y :: ys => (x :: y) :: ys

/-- Python `str.splitlines` for newline-separated text.  Our inputs never end
in a newline, for which this agrees with Python (Python drops a final empty
line, plain splitting does not). -/
def pySplitLines (s : String) : List String := (splitChar '\n' s.data).map String.mk

/-- Python `str.split('\n')`, which keeps a trailing empty part. -/
def pySplitNl (s : String) : List String := (splitChar '\n' s.data).map String.mk

/-- Does `p` occur at the start of `s`? -/
def listStartsWith : List Char → List Char → Bool
  | [], _ => true
  | _ :: _, [] => false
  | p :: ps, x :: xs => p = x && listStartsWith ps xs

/-- Does `pat` occur as a contiguous run inside `s`? -/
def listContainsSub (pat : List Char) : List Char → Bool
  | [] => listStartsWith pat []
  | x :: xs => listStartsWith pat (x :: xs) || listContainsSub pat xs

/-- Python `pat in s`. -/
def pyIn (pat s : String) : Bool := listContainsSub pat.data s.data

/-- Python `s.startswith(p)`. -/
def pyStartsWith (s p : String) : Bool := listStartsWith p.data s.data

/-- Python `s.endswith(p)`. -/
def pyEndsWith (s p : String) : Bool := listStartsWith p.data.reverse s.data.reverse

/-- Python `s.strip` leaving the empty string: every character is whitespace. -/
def pyIsBlank (s : String) : Bool := s.data.all Char.isWhitespace

/-- Python `'\n'.join(lines)`. -/
def joinNl : List String → String
  | [] => ""
  | [x] => x
  | x :: xs => x ++ "\n" ++ joinNl xs

/-- Digit-string to number, used by the specification-side hunk-header parser. -/
def charsToNatAux : List Char → Nat → Option Nat
  | [], acc => some acc
  | c :: cs, acc => if c.isDigit then charsToNatAux cs (acc * 10 + (c.toNat - 48)) else none

/-- Parse a non-empty all-digit string as a number. -/
def strToNum? (s : String) : Option Nat :=
  match s.data with
  | [] => none
  | l => charsToNatAux l 0

/-! ## Model of the libcst syntax trees seen by the collectors

`libcst.parse_module` is external; the collectors only inspect the tree shape.
The tree is modelled to nesting depth two (top-level statements and the
statements directly inside their bodies), which is the nesting the claims talk
about.  A visitor method returning `False` makes libcst skip the children of
the node; returning `True` (or not overriding the method, as for all other
node kinds) descends into them. -/

/-- A statement directly inside the body of a top-level statement. -/
inductive PyChild where
  | functionDef (name : String) (startLine endLine : Nat)
  | classDef (name : String) (startLine endLine : Nat)
  | other
deriving DecidableEq, Repr

/-- A top-level statement of a parsed module. -/
inductive PyStmt where
  | functionDef (name : String) (startLine endLine : Nat) (body : List PyChild)
  | classDef (name : String) (startLine endLine : Nat) (body : List PyChild)
  | other (body : List PyChild)
deriving DecidableEq, Repr

/-- A collected span tuple `(type, name, (start, end))` as appended by
`ChunkCollector._add_chunk`. -/
def SpanTuple := String × String × Nat × Nat
deriving DecidableEq, Repr

namespace Chunker

/-! Model of `scripts/pr_review/chunker.py` (the reviewer-distribution
variant).  Its `ChunkCollector` has `visit_FunctionDef` and `visit_ClassDef`
both returning `False`, so per the libcst visitor contract neither kind of
node has its children visited. -/

/-- Spans a visited child node contributes.  A child is only reached when the
visit method of the parent descended into the body. -/
def visitChild : PyChild → List SpanTuple
  | .functionDef n s e => [("function", n, s, e)]
  | .classDef n s e => [("class", n, s, e)]
  | .other => []

/-- Spans a visited top-level statement contributes, for a visitor whose
`visit_FunctionDef` returns `descendF` and whose `visit_ClassDef` returns
`descendC`; node kinds without a visitor method are always descended into. -/
def visitStmt (descendF descendC : Bool) : PyStmt → List SpanTuple
  | .functionDef n s e body =>
      ("function", n, s, e) :: (if descendF then (body.map visitChild).flatten else [])
  | .classDef n s e body =>
      ("class", n, s, e) :: (if descendC then (body.map visitChild).flatten else [])
  | .other body => (body.map visitChild).flatten

/-- `ChunkCollector` run over a parsed module: both visit methods return
`False`, so neither function nor class bodies are descended into. -/
def chunkCollector (stmts : List PyStmt) : List SpanTuple :=
  (stmts.map (visitStmt false false)).flatten

/-- Replace every function body and class body by the empty body, keeping
other statements as they are.  Used to state that the output of the collector
never depends on what is nested inside function or class bodies. -/
def eraseBodies : PyStmt → PyStmt
  | .functionDef n s e _ => .functionDef n s e []
  | .classDef n s e _ => .classDef n s e []
  | .other body => .other body

/-- Failure of `divide_chunks_among_reviewers`.  With an empty reviewer list
and a non-empty chunk list the Python code raises (a division-by-zero from
`idx % len(reviewers)`); the specification calls this condition
`InvalidConfiguration`. -/
inductive DistError where
  | invalidConfiguration
deriving DecidableEq, Repr

/-- The flattened chunk list
`[(file, chunk) for file, chunks_in_file in chunks.items() for chunk in chunks_in_file]`.
The `chunks` dict is modelled as an insertion-ordered association list; the
chunk values are opaque to the distributor, hence the type parameter. -/
def chunk_list {α : Type} (chunks : List (String × List α)) : List (String × α) :=
  (chunks.map (fun fc => fc.2.map (fun c => (fc.1, c)))).flatten

/-- The distribution loop of `divide_chunks_among_reviewers`: at iteration
`idx` the entry is appended to `reviewer_chunks[reviewers[idx % len(reviewers)]]`.
The dict is modelled as a function from reviewer name to its list; the key
always exists because `reviewers[idx % len(reviewers)]` is a member of
`reviewers`, which seeds the dict. -/
def distributeLoop {α : Type} (reviewers : List String) :
    List (String × α) → Nat → (String → List (String × α)) → String → List (String × α)
  | [], _, acc => acc
  | entry :: rest, idx, acc =>
      let r := reviewers.getD (idx % reviewers.length) ""
      distributeLoop reviewers rest (idx + 1)
        (fun s => if s = r then acc s ++ [entry] else acc s)

/-- `divide_chunks_among_reviewers(chunks, reviewers)`.  The appended dict
entry (a dict with keys `file` and `chunk`) is modelled as the pair
`(file, chunk)`.  When `reviewers` is empty and the chunk list is not, the
first loop iteration raises in Python; this is the error case. -/
def divide_chunks_among_reviewers {α : Type} (chunks : List (String × List α))
    (reviewers : List String) : Except DistError (String → List (String × α)) :=
  if reviewers.length = 0 ∧ (chunk_list chunks).isEmpty = false then
    Except.error DistError.invalidConfiguration
  else
    Except.ok (distributeLoop reviewers (chunk_list chunks) 0 (fun _ => []))

/-- `get_file_content(repo, commit_sha, file_path)` of this script returns
`None` when `repo.git.show` raises; git itself is the opaque parameter
`show`. -/
def get_file_content (gitShow : String → String → Option String)
    (commit_sha file_path : String) : Option String :=
  gitShow commit_sha file_path

/-- Per-file body of the `analyze_changes` loop.  Non-Python files are
skipped; a falsy content (`None` or `""`) is skipped; a parse failure raises
inside the per-file `try` and is caught, skipping the file.  The libcst
parser is the opaque parameter `parse`. -/
def processFile (gitShow : String → String → Option String)
    (parse : String → Option (List PyStmt)) (head file_path : String) :
    Option (String × List SpanTuple) :=
  if pyEndsWith file_path ".py" = false then none
  else
    match get_file_content gitShow head file_path with
    | none => none
    | some content =>
        if content = "" then none
        else
          match parse content with
          | none => none
          | some stmts => some (file_path, chunkCollector stmts)

/-- `analyze_changes(repo, base, head)` over the externally supplied list of
changed files: each file is processed inside its own `try`/`except ...
continue`, so the result is the collection of the successfully processed
files. -/
def analyze_changes (gitShow : String → String → Option String)
    (parse : String → Option (List PyStmt)) (head : String)
    (changed_files : List String) : List (String × List SpanTuple) :=
  changed_files.filterMap (processFile gitShow parse head)

end Chunker

namespace PrReview

/-! Model of `scripts/pr_review/pr_chunker.py` (the filter-argument variant).
Its `ChunkCollector` is the same `False`-returning visitor as in
`chunker.py`, so `Chunker.chunkCollector` models it as well. -/

/-- An enriched chunk dict
with keys `type`, `name`, `lines` (a start/end pair) and `diff`,
as built by `process_chunks`. -/
structure EnrichedChunk where
  typ : String
  name : String
  startLine : Nat
  endLine : Nat
  diff : String
deriving DecidableEq, Repr

/-- The definition-line test of `extract_context`:
the line contains `def name(` for a function span and `class name(`
for a class span, with `name` interpolated. -/
def matchesDefLine (typ name line : String) : Bool :=
  (typ == "function" && pyIn ("def " ++ name ++ "(") line) ||
  (typ == "class" && pyIn ("class " ++ name ++ "(") line)

/-- The fabricated hunk header `f"@@ -\x7bstart\x7d,0 +\x7bend\x7d,0 @@"`
appended when the definition line is first found. -/
def fabricatedHeader (startLine endLine : Nat) : String :=
  "@@ -" ++ Nat.repr startLine ++ ",0 +" ++ Nat.repr endLine ++ ",0 @@"

/-- The scanning loop of `extract_context`: before the definition line is
found nothing is collected; on the line that first matches, the fabricated
header is appended and, from that line on, every line is collected until more
than 50 lines have accumulated (the `break`).  The three branches spell out
the three reachable combinations of `found` and the match test. -/
def extractLoop (typ name : String) (startLine endLine : Nat) :
    List String → Bool → List String → Bool × List String
  | [], found, acc => (found, acc)
  | line :: rest, found, acc =>
      if found then
        if (acc ++ [line]).length > 50 then (true, acc ++ [line])
        else extractLoop typ name startLine endLine rest true (acc ++ [line])
      else if matchesDefLine typ name line then
        if (acc ++ [fabricatedHeader startLine endLine, line]).length > 50 then
          (true, acc ++ [fabricatedHeader startLine endLine, line])
        else extractLoop typ name startLine endLine rest true
          (acc ++ [fabricatedHeader startLine endLine, line])
      else extractLoop typ name startLine endLine rest false acc

/-- `extract_context(diff, type_, name, start, end)`: returns the joined
collected lines when the definition line was found, else `None`.  Note that
it never consults the real hunk headers of `diff`. -/
def extract_context (diff typ name : String) (startLine endLine : Nat) : Option String :=
  let r := extractLoop typ name startLine endLine (pySplitLines diff) false []
  if r.1 then some (joinNl r.2) else none

/-- `process_chunks(chunks, diff)`: keep a span exactly when
`extract_context` returns a truthy (non-`None`, non-empty) excerpt, in span
order. -/
def process_chunks (chunks : List SpanTuple) (diff : String) : List EnrichedChunk :=
  chunks.filterMap fun tns =>
    match extract_context diff tns.1 tns.2.1 tns.2.2.1 tns.2.2.2 with
    | none => none
    | some d => if d = "" then none else some ⟨tns.1, tns.2.1, tns.2.2.1, tns.2.2.2, d⟩

/-- Default of the `--min-lines` argument. -/
def min_lines_default : Nat := 200

/-- Default of the `--max-lines` argument. -/
def max_lines_default : Nat := 800

/-- The writes `generate_output` performs for one chunk. -/
def chunkWrites (c : EnrichedChunk) : List String :=
  [ "### " ++ (if c.typ = "function" then "🔹" else "🔸") ++ " " ++ c.name ++ "\n",
    "*Lines " ++ Nat.repr c.startLine ++ "-" ++ Nat.repr c.endLine ++ "*\n\n",
    "```diff\n",
    c.diff,
    "\n```\n\n",
    "[Add Review Comment](#)\n\n---\n\n" ]

/-- The sequence of strings `generate_output` writes to the output file, in
order.  The `min_lines`/`max_lines` arguments appear only in the header
write; no chunk is dropped on their account. -/
def generate_output_writes (chunks : List (String × List EnrichedChunk))
    (pr_number : Nat) (repo_name : String) (min_lines max_lines : Nat) : List String :=
  [ "# PR #" ++ Nat.repr pr_number ++ " Review Chunks\n\n",
    "**Repository**: " ++ repo_name ++ "\n",
    "**Chunk Size**: " ++ Nat.repr min_lines ++ "-" ++ Nat.repr max_lines ++ " lines\n\n" ]
  ++ (chunks.map fun fc =>
        ("## 📄 " ++ fc.1 ++ "\n\n") :: (fc.2.map chunkWrites).flatten).flatten

end PrReview

namespace PrTop

/-! Model of `scripts/pr_chunker.py` (the environment-driven variant). -/

/-- A chunk dict with keys `name`, `type` and `diff` built by
`identify_changed_components`. -/
structure DefChunk where
  name : String
  typ : String
  diff : String
deriving DecidableEq, Repr

/-- Definitions a visited child node contributes for `DefinitionCollector`,
which records `(kind, name)` pairs without line numbers. -/
def visitChildDef : PyChild → List (String × String)
  | .functionDef n _ _ => [("function", n)]
  | .classDef n _ _ => [("class", n)]
  | .other => []

/-- Definitions a visited top-level statement contributes;
the visit methods of `DefinitionCollector` also both return `False`. -/
def visitStmtDef (descendF descendC : Bool) : PyStmt → List (String × String)
  | .functionDef n _ _ body =>
      ("function", n) :: (if descendF then (body.map visitChildDef).flatten else [])
  | .classDef n _ _ body =>
      ("class", n) :: (if descendC then (body.map visitChildDef).flatten else [])
  | .other body => (body.map visitChildDef).flatten

/-- `DefinitionCollector` run over a parsed module. -/
def definitionCollector (stmts : List PyStmt) : List (String × String) :=
  (stmts.map (visitStmtDef false false)).flatten

/-- `get_file_content(repo, sha, file_path)` of this script catches the
failure of `repo.git.show` and returns the empty string (the file did not
exist at this commit). -/
def get_file_content (gitShow : String → String → Option String)
    (sha file_path : String) : String :=
  match gitShow sha file_path with
  | some s => s
  | none => ""

/-- The trigger test of `extract_definition_diff`:
the line starts with `+def ` and contains the name, for functions, and
the `+class ` variant for classes. -/
def startsDefLine (def_type def_name line : String) : Bool :=
  (def_type == "function" && pyStartsWith line "+def " && pyIn def_name line) ||
  (def_type == "class" && pyStartsWith line "+class " && pyIn def_name line)

/-- The scanning loop of `extract_definition_diff`: lines before the trigger
line are skipped (the trigger line itself is skipped by the `continue`);
afterwards lines are collected, stopping after a blank line or a
`diff --git` line. -/
def extractDefLoop (def_type def_name : String) :
    List String → Bool → List String → List String
  | [], _, acc => acc
  | line :: rest, inChunk, acc =>
      if !inChunk then
        extractDefLoop def_type def_name rest (startsDefLine def_type def_name line) acc
      else
        let acc2 := acc ++ [line]
        if pyIsBlank line || pyStartsWith line "diff --git" then acc2
        else extractDefLoop def_type def_name rest inChunk acc2

/-- `extract_definition_diff(full_diff, def_type, def_name)`: `None` when no
line was collected, the joined lines otherwise. -/
def extract_definition_diff (full_diff def_type def_name : String) : Option String :=
  let cls := extractDefLoop def_type def_name (pySplitNl full_diff) false []
  if cls.isEmpty then none else some (joinNl cls)

/-- `identify_changed_components(old_tree, new_tree, file_diff)`: collect the
definitions of the new tree and keep those with a truthy extracted diff.  The
`old_tree` argument is accepted and ignored, exactly as in the source. -/
def identify_changed_components (old_tree : Option (List PyStmt))
    (new_tree : List PyStmt) (file_diff : String) : List DefChunk :=
  (definitionCollector new_tree).filterMap fun tn =>
    match extract_definition_diff file_diff tn.1 tn.2 with
    | none => none
    | some d => if d = "" then none else some ⟨tn.2, tn.1, d⟩

/-- Per-file body of the `analyze_pr_changes` loop.  `gitDiff` supplies the
per-file diff text; any exception inside the per-file `try` (only the parser
raises in this model) skips the file.  An empty old content (file absent at
the base commit) yields `old_tree = None` without calling the parser. -/
def processPrFile (gitShow : String → String → Option String)
    (parse : String → Option (List PyStmt)) (gitDiff : String → String)
    (base_sha head_sha file_path : String) : Option (String × List DefChunk) :=
  if pyEndsWith file_path ".py" = false then none
  else
    match (if get_file_content gitShow base_sha file_path = "" then some none
           else
             match parse (get_file_content gitShow base_sha file_path) with
             | none => none
             | some t => some (some t) :
           Option (Option (List PyStmt))) with
    | none => none
    | some old_tree =>
        match parse (get_file_content gitShow head_sha file_path) with
        | none => none
        | some new_tree =>
            if (identify_changed_components old_tree new_tree (gitDiff file_path)).isEmpty
            then none
            else
              some (file_path,
                identify_changed_components old_tree new_tree (gitDiff file_path))

/-- `analyze_pr_changes` over the externally supplied changed-file list. -/
def analyze_pr_changes (gitShow : String → String → Option String)
    (parse : String → Option (List PyStmt)) (gitDiff : String → String)
    (base_sha head_sha : String) (diffs : List String) : List (String × List DefChunk) :=
  diffs.filterMap (processPrFile gitShow parse gitDiff base_sha head_sha)

end PrTop

namespace Spec

/-! Specification-side definitions, written from the words of the
specification document to compare the code against. -/

/-- Modelled from the spec: the Diff Hunk Parser of section 4.2 reads a hunk
header of the form `@@ -oldStart[,oldCount] +newStart[,newCount] @@` and
records the `newStart`/`newCount` pair, `newCount` defaulting to 1 when
omitted. -/
def parseHunkHeader_spec (line : String) : Option (Nat × Nat) :=
  match (splitChar ' ' line.data).map String.mk with
  | "@@" :: oldPart :: newPart :: "@@" :: _ =>
      match oldPart.data, newPart.data with
      | '-' :: _, '+' :: newRest =>
          match (splitChar ',' newRest).map String.mk with
          | [c] => (strToNum? c).map fun cv => (cv, 1)
          | [c, d] =>
              match strToNum? c, strToNum? d with
              | some cv, some dv => some (cv, dv)
              | _, _ => none
          | _ => none
      | _, _ => none
  | _ => none

/-- Modelled from the spec: the changed-line set is the union over all hunks
of the range `[newStart, newStart + newCount - 1]`, here as the concatenated
list of those ranges. -/
def changedLineSet_spec (diff : String) : List Nat :=
  (((pySplitLines diff).filterMap parseHunkHeader_spec).map
    fun cd => List.range' cd.1 cd.2).flatten

/-- Modelled from the spec: the intersection test of section 4.3, namely
whether `[startLine, endLine]` meets the changed-line set. -/
def span_intersects_spec (startLine endLine : Nat) (cls : List Nat) : Bool :=
  cls.any fun x => decide (startLine ≤ x) && decide (x ≤ endLine)

end Spec

namespace Asplit

/-! Model of `.github/scripts/asplit_pr_chunks.py`.  Its
`get_chunks_from_file` opens and `ast.parse`s the file inside a `try` whose
bare `except` returns the empty list, and iterates `tree.body` directly, so
only top-level `FunctionDef`/`ClassDef` nodes are collected, as label
strings. -/

/-- The label a top-level statement contributes in the `tree.body` loop:
`Function: name` for a function, `Class: name` for a class, nothing for any
other statement kind. -/
def chunkLabel : PyStmt → Option String
  | .functionDef n _ _ _ => some ("Function: " ++ n)
  | .classDef n _ _ _ => some ("Class: " ++ n)
  | .other _ => none

/-- `get_chunks_from_file(file_path)`: reading and parsing are the external
`readFile` and `parse` parameters, either of whose failure lands in the bare
`except` and yields `[]`.  Nothing else is returned: the caller receives no
error signal of any kind, so a file that fails to parse is indistinguishable
from a file whose module body has no definitions. -/
def get_chunks_from_file (readFile : String → Option String)
    (parse : String → Option (List PyStmt)) (file_path : String) : List String :=
  match readFile file_path with
  | none => []
  | some content =>
      match parse content with
      | none => []
      | some tree => tree.filterMap chunkLabel

end Asplit

/-! ## Helper lemmas about the reviewer distributor -/

/-- `List.getD` agrees with `List.get` below the length. -/
theorem getD_eq_get_of_lt {β : Type} (l : List β) (d : β) (i : Nat) (h : i < l.length) :
    l.getD i d = l.get ⟨i, h⟩ := by
  rw [List.getD_eq_getElem?_getD, List.getElem?_eq_getElem h]
  simp [List.get_eq_getElem]

/-- The reviewer selected at any iteration is a member of the reviewer
list. -/
theorem getD_mod_mem (reviewers : List String) (hne : reviewers ≠ []) (i : Nat) :
    reviewers.getD (i % reviewers.length) "" ∈ reviewers := by
  have hR : 0 < reviewers.length := List.length_pos.mpr hne
  rw [getD_eq_get_of_lt reviewers "" _ (Nat.mod_lt i hR)]
  exact List.get_mem reviewers _ _

/-- Closed form of the distribution loop: reviewer `r` receives, appended to
its accumulator, exactly the entries whose iteration index selects `r`, in
input order. -/
theorem distributeLoop_apply {α : Type} (reviewers : List String)
    (entries : List (String × α)) :
    ∀ (idx : Nat) (acc : String → List (String × α)) (r : String),
    Chunker.distributeLoop reviewers entries idx acc r =
      acc r ++ ((List.enumFrom idx entries).filter
        (fun p => decide (reviewers.getD (p.1 % reviewers.length) "" = r))).map Prod.snd := by
  induction entries with
  | nil => intro idx acc r; simp [Chunker.distributeLoop]
  | cons e rest ih =>
      intro idx acc r
      rw [Chunker.distributeLoop, ih]
      simp only [List.enumFrom_cons, List.filter_cons, List.getD]
      by_cases h : reviewers[idx % reviewers.length]?.getD "" = r
      · simp [h, List.append_assoc]
      · simp [h, Ne.symm h]

/-- With at least one reviewer the distributor succeeds, and the sequence of each reviewer
sequence is the filtered projection of the enumerated chunk list. -/
theorem divide_ok {α : Type} (chunks : List (String × List α)) (reviewers : List String)
    (hne : reviewers ≠ []) :
    Chunker.divide_chunks_among_reviewers chunks reviewers =
      Except.ok (fun r =>
        ((List.enumFrom 0 (Chunker.chunk_list chunks)).filter
          (fun p => decide (reviewers.getD (p.1 % reviewers.length) "" = r))).map Prod.snd) := by
  unfold Chunker.divide_chunks_among_reviewers
  rw [if_neg]
  · congr 1
    funext r
    rw [distributeLoop_apply]
    simp
  · rintro ⟨h0, _⟩
    exact hne (List.length_eq_zero.mp h0)

/-- Splitting a list into the fibers of a key function over a duplicate-free
list of keys covering every element is a permutation of the list. -/
theorem flatten_filter_fiber_perm {β : Type} (g : β → String) :
    ∀ (keys : List String) (xs : List β), keys.Nodup → (∀ x ∈ xs, g x ∈ keys) →
    List.Perm ((keys.map fun r => xs.filter (fun x => decide (g x = r))).flatten) xs := by
  intro keys
  induction keys with
  | nil =>
      intro xs _ hxs
      cases xs with
      | nil => simp
      | cons y ys => exact absurd (hxs y (by simp)) (by simp)
  | cons r keys ih =>
      intro xs hnd hxs
      simp only [List.map_cons, List.flatten_cons]
      have hrnot : r ∉ keys := (List.nodup_cons.mp hnd).1
      have hcongr : ∀ r2 ∈ keys,
          xs.filter (fun x => decide (g x = r2)) =
          (xs.filter (fun x => !decide (g x = r))).filter (fun x => decide (g x = r2)) := by
        intro r2 hr2
        rw [List.filter_filter]
        apply List.filter_congr
        intro x _
        by_cases hgx : g x = r2
        · have hr2r : ¬ r2 = r := by
            intro hh
            exact hrnot (hh ▸ hr2)
          simp [hgx, hr2r]
        · simp [hgx]
      rw [List.map_congr_left hcongr]
      have hys : ∀ y ∈ xs.filter (fun x => !decide (g x = r)), g y ∈ keys := by
        intro y hy
        rcases List.mem_filter.mp hy with ⟨hyxs, hn⟩
        simp at hn
        rcases List.mem_cons.mp (hxs y hyxs) with h | h
        · exact absurd h hn
        · exact h
      have hperm := ih (xs.filter (fun x => !decide (g x = r))) (List.nodup_cons.mp hnd).2 hys
      exact (hperm.append_left _).trans (List.filter_append_perm _ xs)

/-- Filtering an enumerated list on a property of the indices has the same
length as filtering the index range itself. -/
theorem filter_fst_length {β : Type} (P : Nat × β → Bool) (q : Nat → Bool)
    (hPq : ∀ p, P p = q p.1) (k : Nat) (l : List β) :
    ((List.enumFrom k l).filter P).length = ((List.range' k l.length).filter q).length := by
  rw [← List.enumFrom_map_fst k l, List.filter_map]
  simp only [List.length_map]
  exact congrArg List.length (List.filter_congr (fun x _ => hPq x))

/-- How many numbers below `N` are congruent to `j` modulo `R`. -/
theorem count_mod_range (R j : Nat) (hR : 0 < R) (hj : j < R) :
    ∀ N, ((List.range N).filter (fun i => decide (i % R = j))).length =
      N / R + if j < N % R then 1 else 0 := by
  intro N
  induction N with
  | zero => simp
  | succ N ih =>
      rw [List.range_succ, List.filter_append, List.length_append, ih]
      have hqs : R * (N / R) + N % R = N := Nat.div_add_mod N R
      have hslt : N % R < R := Nat.mod_lt _ hR
      have hone : (List.filter (fun i => decide (i % R = j)) [N]).length =
          if N % R = j then 1 else 0 := by
        by_cases hNj : N % R = j <;> simp [hNj]
      by_cases hlast : N % R = R - 1
      · have hN1 : N + 1 = R * (N / R + 1) := by
          rw [Nat.mul_succ]
          omega
        have hdiv : (N + 1) / R = N / R + 1 := by
          rw [hN1, Nat.mul_div_cancel_left _ hR]
        have hmod : (N + 1) % R = 0 := by
          rw [hN1, Nat.mul_mod_right]
        rw [hone, hdiv, hmod]
        split_ifs <;> omega
      · have hs1 : N % R + 1 < R := by omega
        have hN1 : N + 1 = R * (N / R) + (N % R + 1) := by omega
        have hdiv : (N + 1) / R = N / R := by
          rw [hN1, Nat.mul_add_div hR, Nat.div_eq_of_lt hs1, Nat.add_zero]
        have hmod : (N + 1) % R = N % R + 1 := by
          rw [hN1, Nat.mul_add_mod, Nat.mod_eq_of_lt hs1]
        rw [hone, hdiv, hmod]
        split_ifs <;> omega

/-- The congruence-class count below `N` is the floor or the ceiling of
`N / R`. -/
theorem count_mod_floor_ceil (R j N : Nat) (hR : 0 < R) (hj : j < R) :
    ((List.range N).filter (fun i => decide (i % R = j))).length = N / R ∨
    ((List.range N).filter (fun i => decide (i % R = j))).length = (N + R - 1) / R := by
  rw [count_mod_range R j hR hj N]
  by_cases h : j < N % R
  · right
    have hs : 0 < N % R := Nat.lt_of_le_of_lt (Nat.zero_le j) h
    have hqs : R * (N / R) + N % R = N := Nat.div_add_mod N R
    have hslt : N % R < R := Nat.mod_lt _ hR
    have hrw : N + R - 1 = R * (N / R + 1) + (N % R - 1) := by
      rw [Nat.mul_succ]
      omega
    rw [if_pos h, hrw, Nat.mul_add_div hR,
      Nat.div_eq_of_lt (show N % R - 1 < R by omega), Nat.add_zero]
  · left
    rw [if_neg h, Nat.add_zero]

/-- For a duplicate-free reviewer list, selecting reviewer `j` is the same as
the iteration index being congruent to `j`. -/
theorem filter_key_eq (reviewers : List String) (hnd : reviewers.Nodup)
    (j : Nat) (hj : j < reviewers.length) (N : Nat) :
    ((List.range' 0 N).filter
        (fun i => decide (reviewers.getD (i % reviewers.length) "" =
          reviewers.getD j ""))).length =
      ((List.range N).filter (fun i => decide (i % reviewers.length = j))).length := by
  rw [← List.range_eq_range']
  apply congrArg List.length
  apply List.filter_congr
  intro i _
  have hR : 0 < reviewers.length := Nat.lt_of_le_of_lt (Nat.zero_le j) hj
  have hlt : i % reviewers.length < reviewers.length := Nat.mod_lt _ hR
  rw [getD_eq_get_of_lt reviewers "" _ hlt, getD_eq_get_of_lt reviewers "" _ hj]
  apply decide_eq_decide.mpr
  rw [List.Nodup.get_inj_iff hnd]
  exact ⟨fun hf => congrArg Fin.val hf, fun hv => Fin.ext hv⟩

/-- Projecting the fibers and flattening is a permutation of the projected
list. -/
theorem flatten_map_proj_perm {β γ : Type} (keys : List String)
    (F : String → List (β × γ)) (xs : List (β × γ))
    (hperm : List.Perm ((keys.map F).flatten) xs) :
    List.Perm ((keys.map fun r => (F r).map Prod.snd).flatten) (xs.map Prod.snd) := by
  have h1 : (keys.map fun r => (F r).map Prod.snd).flatten =
      ((keys.map F).flatten).map Prod.snd := by
    rw [List.map_flatten, List.map_map]
    rfl
  rw [h1]
  exact hperm.map Prod.snd

/-- A flatten permutation makes the fiber lengths sum to the total length. -/
theorem sum_lengths_of_perm {β : Type} (keys : List String) (F : String → List β)
    (xs : List β) (hperm : List.Perm ((keys.map F).flatten) xs) :
    (keys.map fun r => (F r).length).sum = xs.length := by
  have h1 := hperm.length_eq
  rw [List.length_flatten, List.map_map] at h1
  simpa [Function.comp] using h1

/-- Each reviewer bucket of the distribution has the floor-or-ceiling size,
for duplicate-free reviewers. -/
theorem bucket_count (reviewers : List String) (hnd : reviewers.Nodup)
    (j : Nat) (hj : j < reviewers.length) {β : Type} (l : List β) :
    (((List.enumFrom 0 l).filter
        (fun p => decide (reviewers.getD (p.1 % reviewers.length) "" =
          reviewers.getD j ""))).map Prod.snd).length = l.length / reviewers.length ∨
    (((List.enumFrom 0 l).filter
        (fun p => decide (reviewers.getD (p.1 % reviewers.length) "" =
          reviewers.getD j ""))).map Prod.snd).length =
      (l.length + reviewers.length - 1) / reviewers.length := by
  have hR : 0 < reviewers.length := Nat.lt_of_le_of_lt (Nat.zero_le j) hj
  rw [List.length_map,
    filter_fst_length _
      (fun i => decide (reviewers.getD (i % reviewers.length) "" = reviewers.getD j ""))
      (fun p => rfl) 0 l,
    filter_key_eq reviewers hnd j hj]
  exact count_mod_floor_ceil reviewers.length j l.length hR hj

/-! ## Claim theorems for the reviewer distributor -/

/-- C1: for every chunk dict and every non-empty reviewer list the
distributor succeeds, the sequences of all reviewers taken together are a
permutation of the flattened input chunk list (each input chunk lands in
the sequence of exactly one reviewer, none duplicated or dropped), and the total
assigned chunk count equals the input chunk count. -/
theorem C1_distribution_conserves {α : Type} (chunks : List (String × List α))
    (reviewers : List String) (hne : reviewers ≠ []) :
    ∃ f, Chunker.divide_chunks_among_reviewers chunks reviewers = Except.ok f ∧
      List.Perm ((reviewers.dedup.map f).flatten) (Chunker.chunk_list chunks) ∧
      (reviewers.dedup.map fun r => (f r).length).sum =
        (Chunker.chunk_list chunks).length := by
  have hperm := flatten_filter_fiber_perm
    (fun p : Nat × (String × α) => reviewers.getD (p.1 % reviewers.length) "")
    reviewers.dedup (List.enumFrom 0 (Chunker.chunk_list chunks))
    (List.nodup_dedup reviewers)
    (fun x _ => List.mem_dedup.mpr (getD_mod_mem reviewers hne x.1))
  refine ⟨_, divide_ok chunks reviewers hne, ?_, ?_⟩
  · have h2 := flatten_map_proj_perm reviewers.dedup _ _ hperm
    rwa [List.enumFrom_map_snd] at h2
  · simp only [List.length_map]
    have h3 := sum_lengths_of_perm reviewers.dedup _ _ hperm
    rwa [List.enumFrom_length] at h3

/-- C2: under round-robin distribution over `R ≥ 1` pairwise-distinct
reviewers, the chunk at aggregate index `i` lands in the sequence of reviewer
`i mod R`; every reviewer receives either `⌊N/R⌋` or `⌈N/R⌉` chunks; each
sequence of each reviewer is a subsequence of the aggregate chunk list (original
relative order preserved); and rerunning on identical inputs returns the
identical assignment. -/
theorem C2_round_robin {α : Type} (chunks : List (String × List α))
    (reviewers : List String) (hnd : reviewers.Nodup) (hne : reviewers ≠ []) :
    ∃ f, Chunker.divide_chunks_among_reviewers chunks reviewers = Except.ok f ∧
      (∀ i (hi : i < (Chunker.chunk_list chunks).length),
        (Chunker.chunk_list chunks).get ⟨i, hi⟩ ∈
          f (reviewers.getD (i % reviewers.length) "")) ∧
      (∀ j, j < reviewers.length →
        (f (reviewers.getD j "")).length =
            (Chunker.chunk_list chunks).length / reviewers.length ∨
          (f (reviewers.getD j "")).length =
            ((Chunker.chunk_list chunks).length + reviewers.length - 1) /
              reviewers.length) ∧
      (∀ r, List.Sublist (f r) (Chunker.chunk_list chunks)) ∧
      Chunker.divide_chunks_among_reviewers chunks reviewers =
        Chunker.divide_chunks_among_reviewers chunks reviewers := by
  refine ⟨_, divide_ok chunks reviewers hne, ?_, ?_, ?_, rfl⟩
  · intro i hi
    apply List.mem_map.mpr
    refine ⟨(i, (Chunker.chunk_list chunks).get ⟨i, hi⟩), ?_, rfl⟩
    apply List.mem_filter.mpr
    refine ⟨?_, by simp⟩
    have hlen : i < (List.enumFrom 0 (Chunker.chunk_list chunks)).length := by
      simpa using hi
    have hmem : (List.enumFrom 0 (Chunker.chunk_list chunks))[i] ∈
        List.enumFrom 0 (Chunker.chunk_list chunks) := List.getElem_mem hlen
    rw [List.getElem_enumFrom] at hmem
    simpa [List.get_eq_getElem] using hmem
  · intro j hj
    exact bucket_count reviewers hnd j hj (Chunker.chunk_list chunks)
  · intro r
    have h1 := (List.filter_sublist (l := List.enumFrom 0 (Chunker.chunk_list chunks))
      (p := fun p => decide (reviewers.getD (p.1 % reviewers.length) "" = r))).map Prod.snd
    rwa [List.enumFrom_map_snd] at h1

/-- C8: an empty reviewer list with at least one chunk makes the distributor
fail with the invalid-configuration error, while zero chunks with at least
one reviewer succeed with an empty sequence for every reviewer. -/
theorem C8_zero_reviewers_zero_chunks {α : Type} (chunks : List (String × List α))
    (reviewers : List String) :
    ((Chunker.chunk_list chunks).isEmpty = false →
      Chunker.divide_chunks_among_reviewers chunks ([] : List String) =
        Except.error Chunker.DistError.invalidConfiguration) ∧
    (reviewers ≠ [] →
      ∃ f, Chunker.divide_chunks_among_reviewers ([] : List (String × List α)) reviewers =
          Except.ok f ∧ ∀ r, f r = []) := by
  constructor
  · intro hne
    unfold Chunker.divide_chunks_among_reviewers
    rw [if_pos ⟨rfl, hne⟩]
  · intro _
    refine ⟨fun _ => [], ?_, fun r => rfl⟩
    unfold Chunker.divide_chunks_among_reviewers
    rw [if_neg]
    · rfl
    · rintro ⟨_, h2⟩
      simp [Chunker.chunk_list] at h2

/-- Witness for C1 at a concrete input: one file with three chunks, two
reviewers. -/
theorem C1_distribution_conserves_witness :
    ∃ f, Chunker.divide_chunks_among_reviewers [("a.py", [1, 2, 3])] ["r1", "r2"] =
        Except.ok f ∧
      List.Perm ((["r1", "r2"].dedup.map f).flatten)
        (Chunker.chunk_list [("a.py", [1, 2, 3])]) ∧
      (["r1", "r2"].dedup.map fun r => (f r).length).sum =
        (Chunker.chunk_list [("a.py", [1, 2, 3])]).length :=
  C1_distribution_conserves [("a.py", [1, 2, 3])] ["r1", "r2"] (by decide)

/-- Witness for C2 at a concrete input: three chunks, two distinct
reviewers. -/
theorem C2_round_robin_witness :
    ∃ f, Chunker.divide_chunks_among_reviewers [("a.py", [10, 20, 30])] ["r1", "r2"] =
        Except.ok f ∧
      (∀ i (hi : i < (Chunker.chunk_list [("a.py", [10, 20, 30])]).length),
        (Chunker.chunk_list [("a.py", [10, 20, 30])]).get ⟨i, hi⟩ ∈
          f (["r1", "r2"].getD (i % (["r1", "r2"] : List String).length) "")) ∧
      (∀ j, j < (["r1", "r2"] : List String).length →
        (f (["r1", "r2"].getD j "")).length =
            (Chunker.chunk_list [("a.py", [10, 20, 30])]).length /
              (["r1", "r2"] : List String).length ∨
          (f (["r1", "r2"].getD j "")).length =
            ((Chunker.chunk_list [("a.py", [10, 20, 30])]).length +
                (["r1", "r2"] : List String).length - 1) /
              (["r1", "r2"] : List String).length) ∧
      (∀ r, List.Sublist (f r) (Chunker.chunk_list [("a.py", [10, 20, 30])])) ∧
      Chunker.divide_chunks_among_reviewers [("a.py", [10, 20, 30])] ["r1", "r2"] =
        Chunker.divide_chunks_among_reviewers [("a.py", [10, 20, 30])] ["r1", "r2"] :=
  C2_round_robin [("a.py", [10, 20, 30])] ["r1", "r2"] (by decide) (by decide)

/-- Witness for C8 at concrete inputs: one chunk with no reviewers errors;
no chunks with one reviewer succeeds emptily. -/
theorem C8_zero_reviewers_zero_chunks_witness :
    Chunker.divide_chunks_among_reviewers [("a.py", [1])] ([] : List String) =
        Except.error Chunker.DistError.invalidConfiguration ∧
    ∃ f, Chunker.divide_chunks_among_reviewers ([] : List (String × List Nat)) ["alice"] =
        Except.ok f ∧ ∀ r, f r = [] :=
  ⟨(C8_zero_reviewers_zero_chunks [("a.py", [1])] ["alice"]).1 (by decide),
   (C8_zero_reviewers_zero_chunks [("a.py", [1])] ["alice"]).2 (by decide)⟩

/-! ## Helper lemmas about the diff-excerpt extraction -/

/-- Once the definition line has been found the loop keeps reporting it. -/
theorem extractLoop_found_stays (typ name : String) (s e : Nat) :
    ∀ (lines acc : List String),
      (PrReview.extractLoop typ name s e lines true acc).1 = true := by
  intro lines
  induction lines with
  | nil => intro acc; rfl
  | cons line rest ih =>
      intro acc
      rw [PrReview.extractLoop, if_pos rfl]
      split
      · rfl
      · exact ih _

/-- The loop reports the definition line as found exactly when some line
matches the definition pattern. -/
theorem extractLoop_found_iff_any (typ name : String) (s e : Nat) :
    ∀ (lines acc : List String),
      (PrReview.extractLoop typ name s e lines false acc).1 =
        lines.any (PrReview.matchesDefLine typ name) := by
  intro lines
  induction lines with
  | nil => intro acc; rfl
  | cons line rest ih =>
      intro acc
      rw [PrReview.extractLoop, List.any_cons, if_neg (by simp)]
      cases hhit : PrReview.matchesDefLine typ name line
      · rw [if_neg (by simp [hhit])]
        simp only [Bool.false_or]
        exact ih _
      · rw [if_pos (by simp)]
        simp only [Bool.true_or]
        split
        · rfl
        · exact extractLoop_found_stays typ name s e rest _

/-- After the find, the first collected line is preserved by the rest of the
loop. -/
theorem extractLoop_head_stays (typ name : String) (s e : Nat) :
    ∀ (lines acc : List String), acc ≠ [] →
      (PrReview.extractLoop typ name s e lines true acc).2.head? = acc.head? := by
  intro lines
  induction lines with
  | nil => intro acc _; rfl
  | cons line rest ih =>
      intro acc hacc
      rw [PrReview.extractLoop, if_pos rfl]
      have happ : (acc ++ [line]).head? = acc.head? := by
        cases acc with
        | nil => exact absurd rfl hacc
        | cons a as => rfl
      split
      · exact happ
      · rw [ih (acc ++ [line]) (by simp)]
        exact happ

/-- When the pattern is found starting from the empty accumulator, the
collected lines start with the fabricated hunk header. -/
theorem extractLoop_result_head (typ name : String) (s e : Nat) :
    ∀ (lines : List String),
      (PrReview.extractLoop typ name s e lines false []).1 = true →
      (PrReview.extractLoop typ name s e lines false []).2.head? =
        some (PrReview.fabricatedHeader s e) := by
  intro lines
  induction lines with
  | nil => intro h; exact absurd h (by simp [PrReview.extractLoop])
  | cons line rest ih =>
      intro hfound
      rw [PrReview.extractLoop, if_neg (by simp)] at hfound ⊢
      cases hhit : PrReview.matchesDefLine typ name line
      · rw [if_neg (by simp [hhit])] at hfound ⊢
        exact ih hfound
      · rw [if_pos (by simp [hhit])] at hfound ⊢
        simp only [List.nil_append] at hfound ⊢
        split
        · rfl
        · rw [extractLoop_head_stays typ name s e rest _ (by simp)]
          rfl

/-- The fabricated hunk header is never the empty string. -/
theorem fabricatedHeader_length_pos (s e : Nat) :
    0 < (PrReview.fabricatedHeader s e).length := by
  unfold PrReview.fabricatedHeader
  rw [String.length_append]
  have h5 : (",0 @@" : String).length = 5 := by decide
  omega

/-- Joining lines whose first line is non-empty gives a non-empty string. -/
theorem joinNl_cons_ne_empty (h : String) (tl : List String) (hl : 0 < h.length) :
    joinNl (h :: tl) ≠ "" := by
  cases tl with
  | nil =>
      intro hc
      rw [show joinNl [h] = h from rfl] at hc
      rw [hc] at hl
      simp at hl
  | cons b tl2 =>
      intro hc
      have hlen := congrArg String.length hc
      rw [show joinNl (h :: b :: tl2) = h ++ "\n" ++ joinNl (b :: tl2) from rfl,
        String.length_append, String.length_append] at hlen
      simp at hlen
      omega

/-- When some diff line matches the definition pattern, `extract_context`
returns a non-empty excerpt. -/
theorem extract_context_of_match (diff typ name : String) (s e : Nat)
    (h : (pySplitLines diff).any (PrReview.matchesDefLine typ name) = true) :
    ∃ d, PrReview.extract_context diff typ name s e = some d ∧ d ≠ "" := by
  have h1 := extractLoop_found_iff_any typ name s e (pySplitLines diff) []
  rw [h] at h1
  refine ⟨joinNl (PrReview.extractLoop typ name s e (pySplitLines diff) false []).2, ?_, ?_⟩
  · show (if (PrReview.extractLoop typ name s e (pySplitLines diff) false []).1 = true then
        some (joinNl (PrReview.extractLoop typ name s e (pySplitLines diff) false []).2)
      else none) =
      some (joinNl (PrReview.extractLoop typ name s e (pySplitLines diff) false []).2)
    rw [h1, if_pos rfl]
  · have h2 := extractLoop_result_head typ name s e (pySplitLines diff) h1
    cases hres : (PrReview.extractLoop typ name s e (pySplitLines diff) false []).2 with
    | nil => rw [hres] at h2; simp at h2
    | cons a tl =>
        rw [hres] at h2
        have ha : a = PrReview.fabricatedHeader s e := by
          simpa using h2
        rw [ha]
        exact joinNl_cons_ne_empty _ tl (fabricatedHeader_length_pos s e)

/-- A span whose definition pattern occurs in the diff text is kept by
`process_chunks` (with whatever excerpt was extracted for it), independently
of the other spans. -/
theorem process_chunks_mem_of_match (spans : List SpanTuple) (diff : String)
    (typ name : String) (s e : Nat) (hmem : ((typ, name, s, e) : SpanTuple) ∈ spans)
    (hmatch : (pySplitLines diff).any (PrReview.matchesDefLine typ name) = true) :
    ∃ d, (⟨typ, name, s, e, d⟩ : PrReview.EnrichedChunk) ∈
      PrReview.process_chunks spans diff := by
  obtain ⟨d, hd, hne⟩ := extract_context_of_match diff typ name s e hmatch
  refine ⟨d, List.mem_filterMap.mpr ⟨(typ, name, s, e), hmem, ?_⟩⟩
  simp [PrReview.process_chunks, hd, hne]

/-! ## Claim theorems about hunk parsing, intersection and filtering -/

/-- C3: the code has no diff-hunk parsing.  On the example of the specification
header the specification-side parser yields the changed-line set
`(8, 9, 10, 11)`, yet `extract_context` — the only diff processing in the
code — ignores the header entirely: for a span covering exactly those lines
it returns `None` and the span is dropped. -/
theorem C3_hunk_headers_ignored :
    Spec.changedLineSet_spec "@@ -5,3 +8,4 @@" = [8, 9, 10, 11] ∧
    PrReview.extract_context "@@ -5,3 +8,4 @@" "function" "foo" 8 11 = none ∧
    PrReview.process_chunks [("function", "foo", 8, 11)] "@@ -5,3 +8,4 @@" = [] := by
  decide

/-- C4: a span whose line range meets the hunk-derived changed-line set is
nevertheless dropped by the code: the intersection criterion is not
implemented.  The changed-line set of `@@ -1,2 +15,2 @@` is `(15, 16)`,
which meets the span `[10, 20]`, yet `process_chunks` returns nothing for
it because no diff line contains the definition pattern. -/
theorem C4_intersection_not_implemented :
    Spec.changedLineSet_spec "@@ -1,2 +15,2 @@" = [15, 16] ∧
    Spec.span_intersects_spec 10 20 [15, 16] = true ∧
    PrReview.process_chunks [("function", "foo", 10, 20)] "@@ -1,2 +15,2 @@" = [] := by
  decide

/-- C5 counterexample: the example given with the claim — class span `[1, 50]` with a
method span `[10, 15]` and changed-line set `(12)` — has both spans meeting
the set, yet the code reports neither span, because its inclusion test is
the definition-pattern match, not line intersection. -/
theorem C5_counterexample :
    Spec.changedLineSet_spec "@@ -12,1 +12,1 @@" = [12] ∧
    Spec.span_intersects_spec 1 50 [12] = true ∧
    Spec.span_intersects_spec 10 15 [12] = true ∧
    PrReview.process_chunks [("class", "C", 1, 50), ("function", "m", 10, 15)]
      "@@ -12,1 +12,1 @@" = [] := by
  decide

/-- C5 amended: under the actual inclusion test of the code, when both a class
span and a method span have their definition patterns in the diff text, both
are reported — the enclosing class span is never suppressed. -/
theorem C5_no_suppression (spans : List SpanTuple) (diff : String)
    (cn mn : String) (cs ce ms me : Nat)
    (hc : (("class", cn, cs, ce) : SpanTuple) ∈ spans)
    (hm : (("function", mn, ms, me) : SpanTuple) ∈ spans)
    (hcl : (pySplitLines diff).any (PrReview.matchesDefLine "class" cn) = true)
    (hml : (pySplitLines diff).any (PrReview.matchesDefLine "function" mn) = true) :
    (∃ d, (⟨"class", cn, cs, ce, d⟩ : PrReview.EnrichedChunk) ∈
        PrReview.process_chunks spans diff) ∧
    (∃ d, (⟨"function", mn, ms, me, d⟩ : PrReview.EnrichedChunk) ∈
        PrReview.process_chunks spans diff) :=
  ⟨process_chunks_mem_of_match spans diff "class" cn cs ce hc hcl,
   process_chunks_mem_of_match spans diff "function" mn ms me hm hml⟩

/-- Witness for the amended C5 at a concrete input: a diff containing both
definition lines makes both the class span and the contained method span
appear in the output. -/
theorem C5_no_suppression_witness :
    (∃ d, (⟨"class", "C", 1, 50, d⟩ : PrReview.EnrichedChunk) ∈
        PrReview.process_chunks [("class", "C", 1, 50), ("function", "m", 10, 15)]
          "+class C(object):\n+    def m(self):") ∧
    (∃ d, (⟨"function", "m", 10, 15, d⟩ : PrReview.EnrichedChunk) ∈
        PrReview.process_chunks [("class", "C", 1, 50), ("function", "m", 10, 15)]
          "+class C(object):\n+    def m(self):") :=
  C5_no_suppression [("class", "C", 1, 50), ("function", "m", 10, 15)]
    "+class C(object):\n+    def m(self):" "C" "m" 1 50 10 15
    (by decide) (by decide) (by decide) (by decide)

/-! ## Claim theorems about the span extractor -/

/-- C6 counterexample: for a class `C` on lines 1 to 50 with a method `m` on
lines 10 to 15 directly inside its body, the collector emits only the class
span; no span is emitted for the nested method and no dotted name `C.m`
appears. -/
theorem C6_counterexample :
    Chunker.chunkCollector [PyStmt.classDef "C" 1 50 [PyChild.functionDef "m" 10 15]] =
      [("class", "C", 1, 50)] ∧
    (¬ ∃ t ∈ Chunker.chunkCollector
        [PyStmt.classDef "C" 1 50 [PyChild.functionDef "m" 10 15]], t.2.1 = "C.m") ∧
    (("function", "m", 10, 15) : SpanTuple) ∉
      Chunker.chunkCollector [PyStmt.classDef "C" 1 50 [PyChild.functionDef "m" 10 15]] := by
  decide

/-- C6 amended: the collector emits a top-level class as a single span with
its bare (undotted) name, and its output never depends on what is nested
inside function or class bodies — in particular a method inside a class body
is never emitted as its own span. -/
theorem C6_top_level_only (stmts : List PyStmt) (n : String) (s e : Nat)
    (body : List PyChild) (h : PyStmt.classDef n s e body ∈ stmts) :
    (("class", n, s, e) : SpanTuple) ∈ Chunker.chunkCollector stmts ∧
    Chunker.chunkCollector stmts =
      Chunker.chunkCollector (stmts.map Chunker.eraseBodies) := by
  constructor
  · apply List.mem_flatten.mpr
    refine ⟨Chunker.visitStmt false false (PyStmt.classDef n s e body),
      List.mem_map_of_mem _ h, ?_⟩
    simp [Chunker.visitStmt]
  · unfold Chunker.chunkCollector
    rw [List.map_map]
    apply congrArg List.flatten
    apply List.map_congr_left
    intro st _
    cases st <;> simp [Chunker.visitStmt, Chunker.eraseBodies, Function.comp]

/-- Witness for the amended C6 at a concrete input. -/
theorem C6_top_level_only_witness :
    (("class", "C", 1, 50) : SpanTuple) ∈ Chunker.chunkCollector
        [PyStmt.classDef "C" 1 50 [PyChild.functionDef "m" 10 15]] ∧
    Chunker.chunkCollector [PyStmt.classDef "C" 1 50 [PyChild.functionDef "m" 10 15]] =
      Chunker.chunkCollector
        ([PyStmt.classDef "C" 1 50 [PyChild.functionDef "m" 10 15]].map
          Chunker.eraseBodies) :=
  C6_top_level_only [PyStmt.classDef "C" 1 50 [PyChild.functionDef "m" 10 15]]
    "C" 1 50 [PyChild.functionDef "m" 10 15] (by decide)

/-- C7: the line-count filter is not implemented.  The argument defaults are
(200, 800), but `generate_output` renders every chunk whatever its size: with
bounds (5, 10) a 3-line chunk `[1, 3]` — which the claim says is dropped —
is still written out, alongside the 8-line chunk `[1, 8]`. -/
theorem C7_filter_not_implemented :
    PrReview.min_lines_default = 200 ∧ PrReview.max_lines_default = 800 ∧
    ("*Lines 1-3*\n\n" : String) ∈ PrReview.generate_output_writes
      [("f.py", [⟨"function", "g", 1, 3, "d"⟩, ⟨"function", "h", 1, 8, "d"⟩])]
      1 "r" 5 10 ∧
    ("*Lines 1-8*\n\n" : String) ∈ PrReview.generate_output_writes
      [("f.py", [⟨"function", "g", 1, 3, "d"⟩, ⟨"function", "h", 1, 8, "d"⟩])]
      1 "r" 5 10 := by
  decide

/-! ## Claim theorems about error handling -/

/-- C9 counterexample: the claim says a parse failure is signalled as a
`ParseError` to the caller; the code cannot signal anything —
`get_chunks_from_file` returns only a chunk list, its bare `except` swallows
the failure, and with the same reader and parser a file whose content fails
to parse produces exactly the same `[]` as a file whose content parses to a
module without definitions. -/
theorem C9_counterexample :
    Asplit.get_chunks_from_file (fun p => if p = "bad.py" then some "(" else some "")
      (fun s => if s = "" then some ([] : List PyStmt) else none) "bad.py" = [] ∧
    Asplit.get_chunks_from_file (fun p => if p = "bad.py" then some "(" else some "")
      (fun s => if s = "" then some ([] : List PyStmt) else none) "empty.py" = [] := by
  decide

/-- C9 amended: a file whose content fails to parse yields an empty chunk
list from `get_chunks_from_file` — the bare `except` swallows the failure
and signals no error — and the per-file `try`/`except`-`continue` of
`analyze_changes` makes the failing file contribute nothing while every
other file is processed exactly as if the failing file were absent, so a
single malformed file never aborts the run. -/
theorem C9_parse_failure_swallowed (readFile : String → Option String)
    (gitShow : String → String → Option String)
    (parse : String → Option (List PyStmt)) (head : String)
    (pre post : List String) (bad content : String)
    (hread : readFile bad = some content)
    (hbad : gitShow head bad = some content) (hc : content ≠ "")
    (hparse : parse content = none) :
    Asplit.get_chunks_from_file readFile parse bad = [] ∧
    Chunker.analyze_changes gitShow parse head (pre ++ bad :: post) =
      Chunker.analyze_changes gitShow parse head pre ++
        Chunker.analyze_changes gitShow parse head post := by
  have hskip : Chunker.processFile gitShow parse head bad = none := by
    unfold Chunker.processFile Chunker.get_file_content
    cases hpy : pyEndsWith bad ".py"
    · rw [if_pos rfl]
    · rw [if_neg (by simp), hbad]
      simp [hc, hparse]
  constructor
  · unfold Asplit.get_chunks_from_file
    rw [hread]
    simp [hparse]
  · unfold Chunker.analyze_changes
    rw [List.filterMap_append, List.filterMap_cons_none hskip]

/-- Witness for the amended C9 at a concrete input, with test doubles for
the file reader, git and the parser: the middle file fails to parse, the two
others are analysed. -/
theorem C9_parse_failure_swallowed_witness :
    Asplit.get_chunks_from_file (fun p => if p = "bad.py" then some "(" else some "")
      (fun s => if s = "" then some ([] : List PyStmt) else none) "bad.py" = [] ∧
    Chunker.analyze_changes (fun _ p => if p = "bad.py" then some "(" else some "")
        (fun s => if s = "" then some ([] : List PyStmt) else none) "H"
        (["a.py"] ++ "bad.py" :: ["b.py"]) =
      Chunker.analyze_changes (fun _ p => if p = "bad.py" then some "(" else some "")
        (fun s => if s = "" then some ([] : List PyStmt) else none) "H" ["a.py"] ++
        Chunker.analyze_changes (fun _ p => if p = "bad.py" then some "(" else some "")
          (fun s => if s = "" then some ([] : List PyStmt) else none) "H" ["b.py"] :=
  C9_parse_failure_swallowed (fun p => if p = "bad.py" then some "(" else some "")
    (fun _ p => if p = "bad.py" then some "(" else some "")
    (fun s => if s = "" then some ([] : List PyStmt) else none) "H"
    ["a.py"] ["b.py"] "bad.py" "(" (by decide) (by decide) (by decide) (by decide)

/-- C10: `get_file_content` of `scripts/pr_chunker.py` returns the empty
string, not a failure, when the file is missing at the given commit, and a
file newly added at the head commit is still processed: its old tree is
`None` and the analysis proceeds to `identify_changed_components`. -/
theorem C10_missing_old_file (gitShow : String → String → Option String)
    (parse : String → Option (List PyStmt)) (gitDiff : String → String)
    (base head file content : String) (tree : List PyStmt)
    (hpy : pyEndsWith file ".py" = true)
    (hmiss : gitShow base file = none)
    (hnew : gitShow head file = some content)
    (hparse : parse content = some tree) :
    PrTop.get_file_content gitShow base file = "" ∧
    PrTop.processPrFile gitShow parse gitDiff base head file =
      (if (PrTop.identify_changed_components none tree (gitDiff file)).isEmpty then none
       else some (file, PrTop.identify_changed_components none tree (gitDiff file))) := by
  have hold : PrTop.get_file_content gitShow base file = "" := by
    unfold PrTop.get_file_content
    rw [hmiss]
  have hnewc : PrTop.get_file_content gitShow head file = content := by
    unfold PrTop.get_file_content
    rw [hnew]
  refine ⟨hold, ?_⟩
  unfold PrTop.processPrFile
  rw [if_neg (by simp [hpy]), hold, hnewc, if_pos rfl, hparse]

/-- Witness for C10 at a concrete input, with test doubles for git, the
parser and the per-file diff. -/
theorem C10_missing_old_file_witness :
    PrTop.get_file_content (fun sha _ => if sha = "B" then none else some "def f(): pass")
        "B" "new.py" = "" ∧
    PrTop.processPrFile (fun sha _ => if sha = "B" then none else some "def f(): pass")
        (fun s => if s = "def f(): pass" then some [PyStmt.functionDef "f" 1 1 []] else none)
        (fun _ => "+def f():\nx") "B" "H" "new.py" =
      (if (PrTop.identify_changed_components none [PyStmt.functionDef "f" 1 1 []]
            ((fun _ : String => "+def f():\nx") "new.py")).isEmpty then none
       else some ("new.py",
          PrTop.identify_changed_components none [PyStmt.functionDef "f" 1 1 []]
            ((fun _ : String => "+def f():\nx") "new.py"))) :=
  C10_missing_old_file (fun sha _ => if sha = "B" then none else some "def f(): pass")
    (fun s => if s = "def f(): pass" then some [PyStmt.functionDef "f" 1 1 []] else none)
    (fun _ => "+def f():\nx") "B" "H" "new.py" "def f(): pass"
    [PyStmt.functionDef "f" 1 1 []] (by decide) (by decide) (by decide) (by decide)
